import Mathlib

/-!
Verification development for the `dep` dependency-graph tool.

The Rust sources are shallowly embedded below.  File-system state is a
finite list of files (segment lists with contents); the `vfs` crate's
path join and existence checks are modelled on top of it.  Graphs are
lists of identified nodes and edges, mirroring the petgraph graphs the
tool builds (petgraph's numeric indices are incidental, so nodes carry a
stable identifier instead).

String primitives (`split`, `starts_with`, `strip_prefix`, …) are given
structurally recursive implementations over the character list of a
`String`, so that every definition evaluates by kernel reduction; on the
ASCII inputs the tool handles they agree with the Rust standard library.
-/

namespace Dep

/-- Split a character list at a separator character. -/
def splitChAux (sep : Char) : List Char → List Char → List String
  | [], acc => [String.mk acc.reverse]
  | c :: rest, acc =>
    if c = sep then String.mk acc.reverse :: splitChAux sep rest []
    else splitChAux sep rest (c :: acc)

/-- `str.split(sep)` / Lean's `String.splitOn` for a one-character
separator: `splitCh "a/b" '/' = ["a", "b"]`, `splitCh "" '/' = [""]`. -/
def splitCh (s : String) (sep : Char) : List String :=
  splitChAux sep s.data []

/-- `str::starts_with` on strings. -/
def startsWithCh (s t : String) : Bool :=
  t.data.isPrefixOf s.data

/-- Drop the first `n` characters of a string. -/
def dropCh (s : String) (n : Nat) : String :=
  String.mk (s.data.drop n)

/-- Character length of a string. -/
def lenCh (s : String) : Nat :=
  s.data.length

/-- `String::is_empty`. -/
def isEmptyCh (s : String) : Bool :=
  s.data.isEmpty

/-- A path is a list of segments, relative to the virtual-filesystem root. -/
abbrev FsPath := List String

/-- A virtual filesystem: the regular files present, with their contents.
Mirrors the `vfs::MemoryFS` trees the tool operates on. -/
structure FS where
  files : List (FsPath × String)
deriving Repr, DecidableEq

/-- `path` is a regular file of `fs`. -/
def FS.isFile (fs : FS) (p : FsPath) : Bool :=
  fs.files.any (fun f => f.1 = p)

/-- `path` is a directory of `fs`: the root, or a proper ancestor of some file.
In `vfs::MemoryFS` directories exist exactly when an entry lies beneath them. -/
def FS.isDir (fs : FS) (p : FsPath) : Bool :=
  p = [] || fs.files.any (fun f => p.isPrefixOf f.1 && p ≠ f.1)

/-- `VfsPath::exists`: the path is a file or a directory. -/
def FS.pathExists (fs : FS) (p : FsPath) : Bool :=
  fs.isFile p || fs.isDir p

/-- `VfsPath::join`: split the argument on `/`, skip empty and `.` segments,
let `..` pop one segment (an error — `none` — when already at the root). -/
def joinSegs (dir : FsPath) (spec : String) : Option FsPath :=
  (splitCh spec '/').foldlM
    (fun acc c =>
      if c = "" || c = "." then some acc
      else if c = ".." then
        match acc with
        | [] => none
        | _ => some acc.dropLast
      else some (acc ++ [c]))
    dir

/-- The final path component of a specifier string (Rust `Path::file_name`,
restricted to the well-formed specifiers the tool sees). -/
def fileNameOf (spec : String) : String :=
  ((splitCh spec '/').getLast?).getD ""

/-- Rust `Path::new(spec).extension().is_some()` on a specifier: the last
component contains a `.` other than a leading one. -/
def hasExtension (spec : String) : Bool :=
  match splitCh (fileNameOf spec) '.' with
  | [] => false
  | [_] => false
  | "" :: rest => rest.length > 1
  | _ => true

/-- `Path::extension` of a path given as segments: the part of the last
segment after its last `.` (none when there is no such dot or it leads). -/
def extOfPath (p : FsPath) : Option String :=
  match splitCh (p.getLast?.getD "") '.' with
  | [] => none
  | [_] => none
  | "" :: rest => if rest.length > 1 then rest.getLast? else none
  | l => l.getLast?

/-- `JS_EXTENSIONS` from `lib.rs` / `types/js.rs`. -/
def JS_EXTENSIONS : List String := ["js", "jsx", "ts", "tsx", "mjs", "cjs", "mts", "cts"]

/-- `resolve_relative_import` (`src/lib.rs:212` = `src/types/js.rs:116`):
join the specifier onto the importing directory; if the joined path exists
as-is return it; otherwise, when the specifier has no extension, probe
`spec.<ext>` for each source extension, then `index.<ext>` inside the
joined path. -/
def resolve_relative_import (fs : FS) (dir : FsPath) (spec : String) : Option FsPath :=
  match joinSegs dir spec with
  | none => none
  | some base =>
    if fs.pathExists base then some base
    else if hasExtension spec then none
    else
      match JS_EXTENSIONS.findSome? (fun ext =>
        match joinSegs dir (spec ++ "." ++ ext) with
        | some cand => if fs.pathExists cand then some cand else none
        | none => none) with
      | some cand => some cand
      | none =>
        JS_EXTENSIONS.findSome? (fun ext =>
          match joinSegs base ("index." ++ ext) with
          | some cand => if fs.pathExists cand then some cand else none
          | none => none)

/-- `resolve_alias_import` (`src/lib.rs:238` = `src/types/js.rs:142`). -/
def resolve_alias_import (fs : FS) (aliases : List (String × FsPath)) (spec : String) :
    Option FsPath :=
  aliases.findSome? (fun ab =>
    let pre := ab.1
    let base := ab.2
    if spec = pre || startsWithCh spec (pre ++ "/") then
      let rest := if spec = pre then "" else dropCh spec (lenCh pre + 1)
      match joinSegs base rest with
      | none => none
      | some candidateBase =>
        if fs.pathExists candidateBase then some candidateBase
        else if hasExtension rest then none
        else
          match JS_EXTENSIONS.findSome? (fun ext =>
            match joinSegs base (rest ++ "." ++ ext) with
            | some cand => if fs.pathExists cand then some cand else none
            | none => none) with
          | some cand => some cand
          | none =>
            JS_EXTENSIONS.findSome? (fun ext =>
              match joinSegs candidateBase ("index." ++ ext) with
              | some cand => if fs.pathExists cand then some cand else none
              | none => none)
    else none)

/-- The set of Node.js builtin module names recognised by `is_node_builtin`
(`src/lib.rs:79`, `src/types/js.rs:14`, `src/types/util.rs:6`). -/
def nodeBuiltins : List String :=
  ["assert", "buffer", "child_process", "cluster", "console", "constants",
   "crypto", "dgram", "dns", "domain", "events", "fs", "http", "https",
   "module", "net", "os", "path", "process", "punycode", "querystring",
   "readline", "repl", "stream", "string_decoder", "timers", "tls", "tty",
   "url", "util", "v8", "vm", "zlib"]

/-- `is_node_builtin`: strip an optional `node:` marker, then test membership
in the fixed builtin list. -/
def is_node_builtin (name : String) : Bool :=
  let n := if startsWithCh name "node:" then dropCh name 5 else name
  nodeBuiltins.contains n

/-- `NodeKind` (`src/lib.rs:26`). -/
inductive NodeKind where
  | File
  | External
  | Builtin
  | Folder
  | Asset
  | Package
deriving Repr, DecidableEq

/-- `Node` (`src/lib.rs:36`): canonical name plus kind. -/
structure Node where
  name : String
  kind : NodeKind
deriving Repr, DecidableEq

/-- The shared builder state `GraphCtx` (`src/lib.rs` / `src/types`): the
petgraph graph plus the `(name, kind) → index` interning map.  Nodes carry
their stable index; `nextId` mirrors petgraph's next node index.  Edge
weights are unit in this generation of the code (`DiGraph<Node, ()>`),
i.e. every edge is a `Regular` dependency edge. -/
structure CtxA where
  nodes : List (Nat × Node)
  edges : List (Nat × Nat)
  index : List ((String × NodeKind) × Nat)
  nextId : Nat
deriving Repr, DecidableEq

/-- `data.nodes.get(&key)` on the interning map. -/
def lookupIdx (ctx : CtxA) (key : String × NodeKind) : Option Nat :=
  (ctx.index.find? (fun e => e.1 = key)).map (fun e => e.2)

/-- The interning pattern used throughout the parsers: look the key up in
`data.nodes`; if absent, `graph.add_node` a fresh node and record it. -/
def internNode (key : String × NodeKind) (ctx : CtxA) : Nat × CtxA :=
  match lookupIdx ctx key with
  | some i => (i, ctx)
  | none =>
    let i := ctx.nextId
    (i, { nodes := ctx.nodes ++ [(i, ⟨key.1, key.2⟩)]
          edges := ctx.edges
          index := ctx.index ++ [(key, i)]
          nextId := i + 1 })

/-- `graph.find_edge(a, b).is_some()`. -/
def hasEdge (ctx : CtxA) (a b : Nat) : Bool :=
  ctx.edges.any (fun e => e.1 = a && e.2 = b)

/-- `graph.add_edge(a, b, ())`, unconditional (petgraph permits parallel
edges). -/
def addEdge (a b : Nat) (ctx : CtxA) : CtxA :=
  { ctx with edges := ctx.edges ++ [(a, b)] }

/-- The guarded insertion `if graph.find_edge(a, b).is_none() { add_edge }`
used by `ensure_folders` and the parent-file links. -/
def addEdgeIfAbsent (a b : Nat) (ctx : CtxA) : CtxA :=
  if hasEdge ctx a b then ctx else addEdge a b ctx

/-- The successive values of the `accum` variable in `ensure_folders`'
loop: the `/`-joined proper prefixes of the component list, continuing
`accum`. -/
def accumPrefixes (accum : String) : List String → List String
  | [] => []
  | c :: rest =>
    let accum2 := if isEmptyCh accum then c else accum ++ "/" ++ c
    accum2 :: accumPrefixes accum2 rest

/-- The loop body of `ensure_folders` (`src/lib.rs:132`), one iteration per
accumulated prefix: intern the Folder node for the prefix and link it
(deduplicated) from the previous prefix's node. -/
def ensureFoldersGo (prefixPaths : List String) (parentIdx : Nat)
    (ctx : CtxA) : Nat × CtxA :=
  match prefixPaths with
  | [] => (parentIdx, ctx)
  | p :: rest =>
    let r1 := internNode (p, NodeKind.Folder) ctx
    let ctx2 := addEdgeIfAbsent parentIdx r1.1 r1.2
    ensureFoldersGo rest r1.1 ctx2

/-- The components of `Path::new(rel).parent()`: all `/`-separated segments
of `rel` except the last. -/
def parentComponents (rel : String) : List String :=
  (splitCh rel '/').dropLast

/-- `ensure_folders(rel, data, root_idx)` (`src/lib.rs:132`). -/
def ensure_folders (rel : String) (ctx : CtxA) (rootIdx : Nat) : Nat × CtxA :=
  ensureFoldersGo (accumPrefixes "" (parentComponents rel)) rootIdx ctx

/-- The scanned-file pattern shared by the parsers that register the file
they are parsing (`src/types/html.rs:38`, `src/types/package_json.rs:68`,
`src/types/index_file.rs:35`): ensure the folder chain, intern the File
node, and link it from its parent folder (deduplicated). -/
def addFileWithFolders (rel : String) (rootIdx : Nat) (ctx : CtxA) : Nat × CtxA :=
  let r1 := ensure_folders rel ctx rootIdx
  let r2 := internNode (rel, NodeKind.File) r1.2
  (r2.1, addEdgeIfAbsent r1.1 r2.1 r2.2)

/-- The import-target pattern (`src/types/html.rs:102`, and the edge list
produced by `src/types/js.rs:191`): intern the resolved target node and add
an edge from the importing file, without a duplicate check. -/
def addImportTarget (fromIdx : Nat) (target : String × NodeKind) (ctx : CtxA) : CtxA :=
  let r := internNode target ctx
  addEdge fromIdx r.1 r.2

/-- The import-classification logic of `JsParser::parse`
(`src/types/js.rs:191`, same shape in `src/types/html.rs:56`): relative
specifiers resolve against the importing directory (unresolved ⇒ the edge
is dropped, `none`); otherwise aliases; otherwise a builtin (named by the
raw specifier) or an external.  A resolved target is a `File` when its
extension is one of `JS_EXTENSIONS`, an `Asset` otherwise; its canonical
name is the root-relative path. -/
def classify_import (fs : FS) (dir : FsPath) (aliases : List (String × FsPath))
    (spec : String) : Option (String × NodeKind) :=
  let relName := fun (target : FsPath) => String.intercalate "/" target
  let kindOf := fun (target : FsPath) =>
    if JS_EXTENSIONS.contains ((extOfPath target).getD "") then NodeKind.File
    else NodeKind.Asset
  if startsWithCh spec "." then
    match resolve_relative_import fs dir spec with
    | some target => some (relName target, kindOf target)
    | none => none
  else
    match resolve_alias_import fs aliases spec with
    | some target => some (relName target, kindOf target)
    | none =>
      if is_node_builtin spec then some (spec, NodeKind.Builtin)
      else some (spec, NodeKind.External)

/-- `RawPackage` (`src/types/package_json.rs:9`): the fields deserialised
from a `package.json` manifest.  The dependency maps are association lists
in JSON object order. -/
structure RawPackage where
  name : Option String
  main : Option String
  dependencies : Option (List (String × String))
  devDependencies : Option (List (String × String))
deriving Repr, DecidableEq

/-- `HashMap::insert`-compatible update on an association list: replace the
existing entry for the key, or append a fresh one. -/
def hmInsert (m : List (String × String)) (kv : String × String) :
    List (String × String) :=
  if m.any (fun p => p.1 = kv.1) then
    m.map (fun p => if p.1 = kv.1 then kv else p)
  else m ++ [kv]

/-- `HashMap::extend`: fold `hmInsert` over the new entries. -/
def hmExtend (m : List (String × String)) (l : List (String × String)) :
    List (String × String) :=
  l.foldl hmInsert m

/-- `PackageDepsParser::parse` (`src/types/package_json.rs:107`) given the
already-deserialised manifest (`read_package` yields `none` for malformed
JSON, in which case the parser returns `Ok` immediately, adds nothing and
logs nothing).  Dependencies and devDependencies are merged into one map
(devDependencies win); every entry adds one unconditional edge from the
Package node to a Package node (version starting with `workspace:`) or an
External node.  The returned list is the log output (always empty: this
parser never logs). -/
def parsePackageDeps (parsed : Option RawPackage) (ctx : CtxA) :
    CtxA × List String :=
  match parsed with
  | none => (ctx, [])
  | some raw =>
    match raw.name with
    | none => (ctx, [])
    | some name =>
      let r1 := internNode (name, NodeKind.Package) ctx
      let pkgIdx := r1.1
      let deps := hmExtend (hmExtend [] (raw.dependencies.getD []))
        (raw.devDependencies.getD [])
      let final := deps.foldl
        (fun c dv =>
          let kind := if startsWithCh dv.2 "workspace:" then NodeKind.Package
            else NodeKind.External
          let r2 := internNode (dv.1, kind) c
          addEdge pkgIdx r2.1 r2.2)
        r1.2
      (final, [])

/-- `PackageMainParser::parse` (`src/types/package_json.rs:36`) given the
deserialised manifest and the manifest's directory (root-relative segments):
intern the Package node; when a `main` entry exists on disk, register the
main file with its folder chain (deduplicated parent link) and add an
unconditional edge from the Package node to it.  Log output is always
empty. -/
def parsePackageMain (fs : FS) (dirRel : FsPath) (parsed : Option RawPackage)
    (ctx : CtxA) : CtxA × List String :=
  match parsed with
  | none => (ctx, [])
  | some raw =>
    match raw.name with
    | none => (ctx, [])
    | some name =>
      let r1 := internNode (name, NodeKind.Package) ctx
      let pkgIdx := r1.1
      match raw.main with
      | none => (r1.2, [])
      | some mainStr =>
        match joinSegs dirRel mainStr with
        | none => (r1.2, [])
        | some mainPath =>
          if fs.pathExists mainPath then
            let rel := String.intercalate "/" mainPath
            let r2 := addFileWithFolders rel 0 r1.2
            (addEdge pkgIdx r2.1 r2.2, [])
          else (r1.2, [])

/-- The `package.json` handling of one walked manifest file: `lib.rs` runs
`PackageMainParser` then `PackageDepsParser` on it, discarding their
results (`let _ = p.parse(..)`), so the build continues regardless.  The
second component collects everything either parser logged. -/
def applyManifest (fs : FS) (dirRel : FsPath) (parsed : Option RawPackage)
    (ctx : CtxA) : CtxA × List String :=
  let r1 := parsePackageMain fs dirRel parsed ctx
  let r2 := parsePackageDeps parsed r1.1
  (r2.1, r1.2 ++ r2.2)

/-- One unit of graph-building work, at the granularity the parsers mutate
the shared `GraphCtx`: a scanned file registering itself (folder chain +
File node + parent link), or one resolved import adding its target node
and edge (`src/types/html.rs`, `src/types/js.rs`). -/
inductive BuildEvent where
  | scanFile (rel : String)
  | importEdge (fromRel : String) (target : String) (kind : NodeKind)
deriving Repr, DecidableEq

/-- Initial builder state: the root Folder node, named by the empty string
(`src/lib.rs:282`). -/
def ctx0 : CtxA :=
  { nodes := [(0, ⟨"", NodeKind.Folder⟩)]
    edges := []
    index := [(("", NodeKind.Folder), 0)]
    nextId := 1 }

/-- Apply one build event (`data.nodes[&(rel, File)]` is indexed only after
the importing file was registered; an absent entry is modelled as a
no-op). -/
def applyEvent (ctx : CtxA) : BuildEvent → CtxA
  | BuildEvent.scanFile rel => (addFileWithFolders rel 0 ctx).2
  | BuildEvent.importEdge fromRel target kind =>
    match lookupIdx ctx (fromRel, NodeKind.File) with
    | some fi => addImportTarget fi (target, kind) ctx
    | none => ctx

/-- The serialised effect of `build_dependency_graph` on the shared graph
state: the root node, then the per-file parser mutations in the order the
worker pool commits them. -/
def buildA (events : List BuildEvent) : CtxA :=
  events.foldl applyEvent ctx0

/-- `c2` extends `c1`: interned identifiers, edges and nodes persist (the
builder only ever adds). -/
def CtxLe (c1 c2 : CtxA) : Prop :=
  (∀ k i, lookupIdx c1 k = some i → lookupIdx c2 k = some i) ∧
  (∀ a b, hasEdge c1 a b = true → hasEdge c2 a b = true) ∧
  (∀ x, x ∈ c1.nodes → x ∈ c2.nodes)

/-- The interning map is backed by the node list: every index entry has its
node in the graph. -/
def WFidx (ctx : CtxA) : Prop :=
  ∀ p ∈ ctx.index, (p.2, Node.mk p.1.1 p.1.2) ∈ ctx.nodes

/-- The folder-ancestry check along a list of prefix paths: each prefix
has an interned Folder node present in the graph and an edge from the
previous prefix's node; mirrors the claim's chain from the root down to
the file's directory. -/
def chainGoN (ctx : CtxA) (parentIdx : Nat) :
    List String → Bool
  | [] => true
  | p :: rest =>
    match lookupIdx ctx (p, NodeKind.Folder) with
    | none => false
    | some i =>
      decide ((i, Node.mk p NodeKind.Folder) ∈ ctx.nodes) &&
        hasEdge ctx parentIdx i && chainGoN ctx i rest

/-- The folder-ancestry invariant for a root-relative path `rel`: every
proper prefix of its directory path has a Folder node, each linked from
its parent, starting at the root Folder node (identifier 0, named by the
empty string). -/
def chainOk (ctx : CtxA) (rel : String) : Bool :=
  chainGoN ctx 0 (accumPrefixes "" (parentComponents rel))

/-- `EdgeType`.  Modelled from the spec: the enum itself is referenced by
`src/analysis.rs` but declared in a part of the crate missing from the
sources; §3 of the spec lists the edge kinds: `Regular` (an import
dependency), `SameAs`, and the classification (`TypeOf`) edge linking a
node to its kind singleton. -/
inductive EdgeType where
  | Regular
  | SameAs
  | TypeOf
deriving Repr, DecidableEq

/-- `NodeKind::type_node_name`.  Modelled from the spec: the method is
referenced by `src/analysis.rs` but missing from the sources; §3 gives the
singleton type-node name format `"__type__::<kind>"`. -/
def type_node_name (k : NodeKind) : String :=
  match k with
  | NodeKind.File => "__type__::File"
  | NodeKind.External => "__type__::External"
  | NodeKind.Builtin => "__type__::Builtin"
  | NodeKind.Folder => "__type__::Folder"
  | NodeKind.Asset => "__type__::Asset"
  | NodeKind.Package => "__type__::Package"

/-- `NodeKind::precedence`.  Modelled from the spec: the method is
referenced by `src/analysis.rs` but missing from the sources; §3 fixes the
order File(0) < Asset(1) < External(2) < Builtin(3) < Folder(4) <
Package(5). -/
def precedence (k : NodeKind) : Nat :=
  match k with
  | NodeKind.File => 0
  | NodeKind.Asset => 1
  | NodeKind.External => 2
  | NodeKind.Builtin => 3
  | NodeKind.Folder => 4
  | NodeKind.Package => 5

/-- `NodeKind::type_node_variants`.  Modelled from the spec: every kind
other than the default `File` has a singleton type node (§3). -/
def type_node_variants : List NodeKind :=
  [NodeKind.External, NodeKind.Builtin, NodeKind.Folder, NodeKind.Asset,
   NodeKind.Package]

/-- The graphs `src/analysis.rs` operates on: `DiGraph<Node, EdgeType>`
where this generation's `Node` carries only its name, and kinds live on
classification edges to singleton type nodes.  Nodes carry a stable
identifier in place of petgraph's reusable indices. -/
structure GraphB where
  nodes : List (Nat × String)
  edges : List (Nat × Nat × EdgeType)
deriving Repr, DecidableEq

/-- `is_type_node` (`src/analysis.rs:7`). -/
def is_type_node (name : String) : Bool :=
  startsWithCh name "__type__::"

/-- Node name lookup by identifier. -/
def GraphB.nameOf (g : GraphB) (i : Nat) : Option String :=
  (g.nodes.find? (fun n => n.1 = i)).map (fun n => n.2)

/-- `resolve_node_kind` (`src/analysis.rs:12`): scan the outgoing `TypeOf`
edges of a node; each target that is one of the singleton type nodes
proposes its kind; the highest precedence wins, `File` is the default. -/
def resolve_node_kind (g : GraphB) (idx : Nat) : NodeKind :=
  let step := fun (best : NodeKind × Nat) (e : Nat × Nat × EdgeType) =>
    if e.1 = idx && e.2.2 = EdgeType.TypeOf then
      match (g.nameOf e.2.1).bind
        (fun tname => type_node_variants.find? (fun k => type_node_name k = tname)) with
      | some k => if precedence k > best.2 then (k, precedence k) else best
      | none => best
    else best
  (g.edges.foldl step (NodeKind.File, 0)).1

/-- Positional petgraph storage, as `prune_unconnected` observes it: the
node weights sit in a vector and a `NodeIndex` is a position into it, so
`remove_node`'s swap-removal renumbers the last node.  (The stable-id
`GraphB` view is adequate for `filter_graph`, which only reads and copies;
pruning removes in place, so positions matter.) -/
structure PGraph where
  nodes : List String
  edges : List (Nat × Nat × EdgeType)
deriving Repr, DecidableEq

/-- Does the node at position `i` have any incident edge?  Mirrors the
negation of `graph.edges(idx).next().is_none() &&
graph.edges_directed(idx, Incoming).next().is_none()`
(`src/analysis.rs:45`). -/
def hasIncidentP (g : PGraph) (i : Nat) : Bool :=
  g.edges.any (fun e => e.1 = i || e.2.1 = i)

/-- petgraph's `Graph::remove_node(i)`: drop the edges incident to `i`,
swap-remove the node (the last node moves into position `i`), and rewire
edges that referred to the old last position to `i`. -/
def removeNodeSwap (g : PGraph) (i : Nat) : PGraph :=
  let last := g.nodes.length - 1
  let kept := g.edges.filter (fun e => e.1 ≠ i && e.2.1 ≠ i)
  { nodes := (g.nodes.set i (g.nodes.getLast?.getD "")).dropLast
    edges := kept.map (fun e =>
      ((if e.1 = last then i else e.1),
       (if e.2.1 = last then i else e.2.1), e.2.2)) }

/-- The body of one `prune_unconnected` pass (`src/analysis.rs:38`): walk
the snapshot of node indices collected *before* the pass; `&graph[idx]` is
evaluated first and **panics** (`none`) when the snapshot index is out of
bounds — which happens whenever an earlier removal in this pass shrank the
graph below a not-yet-visited snapshot index; type-singleton nodes are
skipped; an edge-free node is removed by swap-removal. -/
def prunePassGo (g : PGraph) (removed : Bool) :
    List Nat → Option (PGraph × Bool)
  | [] => some (g, removed)
  | idx :: rest =>
    match g.nodes.get? idx with
    | none => none
    | some name =>
      if is_type_node name then prunePassGo g removed rest
      else if hasIncidentP g idx then prunePassGo g removed rest
      else prunePassGo (removeNodeSwap g idx) true rest

/-- One full pass of `prune_unconnected` over the snapshot
`graph.node_indices().collect()` taken at pass start. -/
def prunePassRust (g : PGraph) : Option (PGraph × Bool) :=
  prunePassGo g false (List.range g.nodes.length)

/-- The `loop { .. if !removed { break } }` of `prune_unconnected`; `none`
propagates a panic; the fuel bounds the number of passes by the node
count, which strictly decreases whenever a pass removed something. -/
def pruneLoopRust (fuel : Nat) (g : PGraph) : Option PGraph :=
  match fuel with
  | 0 => some g
  | n + 1 =>
    match prunePassRust g with
    | none => none
    | some (g2, removed) => if removed then pruneLoopRust n g2 else some g2

/-- `prune_unconnected` (`src/analysis.rs:35`): `none` models the
index-out-of-bounds panic on the stale snapshot. -/
def prune_unconnected (g : PGraph) : Option PGraph :=
  pruneLoopRust (g.nodes.length + 1) g

/-- C6's failing input: two non-type nodes, both edge-free (two bare
`{"name":..}` manifests leave exactly such isolated Package nodes). -/
def pgFail : PGraph := ⟨["a", "b"], []⟩

/-- The shape of the repo's own `test_prune_unconnected` graph: an edge
`a -> b` plus an isolated `c` — which sits at the **last** index, the one
position whose removal does not invalidate the snapshot. -/
def pgTest : PGraph := ⟨["a", "b", "c"], [(0, 1, EdgeType.Regular)]⟩

/-- A node whose only edge is a self-loop, next to an isolated last node. -/
def pgSelf : PGraph := ⟨["a", "b"], [(0, 0, EdgeType.Regular)]⟩

/-- The keep-decision of `filter_graph`'s second pass
(`src/analysis.rs:95`). -/
def keepKind (k : NodeKind) (includeExternal includeBuiltin includeFolders
    includeAssets includePackages : Bool) : Bool :=
  match k with
  | NodeKind.External => includeExternal
  | NodeKind.Builtin => includeBuiltin
  | NodeKind.File => true
  | NodeKind.Folder => includeFolders
  | NodeKind.Asset => includeAssets
  | NodeKind.Package => includePackages

/-- `filter_graph` (`src/analysis.rs:62`): first pass copies every type
singleton node; second pass copies every other node that is not on the
ignore list and whose resolved kind is enabled; finally every edge whose
endpoints both survived is copied.  Identifiers are preserved (petgraph
renumbers, which is incidental). -/
def filter_graph (g : GraphB) (includeExternal includeBuiltin includeFolders
    includeAssets includePackages : Bool) (ignoreNodes : List String) : GraphB :=
  let typePass := g.nodes.filter (fun n => is_type_node n.2)
  let regularPass := g.nodes.filter (fun n =>
    !is_type_node n.2 && !ignoreNodes.contains n.2 &&
      keepKind (resolve_node_kind g n.1) includeExternal includeBuiltin
        includeFolders includeAssets includePackages)
  let kept := typePass ++ regularPass
  { nodes := kept
    edges := g.edges.filter (fun e =>
      kept.any (fun n => n.1 = e.1) && kept.any (fun n => n.1 = e.2.1)) }

/-- The `gix_ignore::Search` state accumulated during a walk: the pattern
buffers added so far, each with the path of the file that declared it.
The matching itself is performed by the external `gix_ignore` crate, which
the walker consumes through `matchRel` below. -/
abbrev SearchState := List (FsPath × String)

/-- The `ignored` helper inside `Walk::collect_files`
(`src/traversal.rs:73`): try the pattern match at the path itself, then
climb to successive parent prefixes; the first match decides (negated
patterns re-include).  `matchRel pats rel isDir` is the external
`gix_ignore` matcher: `none` for no match, otherwise whether the matched
pattern was negative. -/
def ignoredAux (matchRel : SearchState → String → Bool → Option Bool)
    (pats : SearchState) : Nat → String → Bool → Bool
  | 0, _, _ => false
  | fuel + 1, rel, isDir =>
    match matchRel pats rel isDir with
    | some isNegative => !isNegative
    | none =>
      let parts := splitCh rel '/'
      if parts.length ≤ 1 then false
      else ignoredAux matchRel pats fuel
        (String.intercalate "/" parts.dropLast) true

/-- `ignored(search, rel, is_dir)` with fuel large enough for every prefix. -/
def ignoredRel (matchRel : SearchState → String → Bool → Option Bool)
    (pats : SearchState) (rel : String) (isDir : Bool) : Bool :=
  ignoredAux matchRel pats ((splitCh rel '/').length + 1) rel isDir

/-- Root-relative display of a walked path. -/
def relOf (rootLen : Nat) (p : FsPath) : String :=
  String.intercalate "/" (p.drop rootLen)

/-- The immediate children of a directory, as `read_dir` enumerates them:
every distinct next segment of an entry lying strictly below it. -/
def childrenOf (fs : FS) (p : FsPath) : List FsPath :=
  ((fs.files.filterMap (fun f =>
      if p.isPrefixOf f.1 && p ≠ f.1 then f.1.get? p.length else none)).dedup).map
    (fun seg => p ++ [seg])

/-- The DFS loop of `Walk::collect_files` (`src/traversal.rs:106`): pop a
path; unreadable metadata (a missing path) is logged and skipped; ignored
paths are skipped; directories load their `.gitignore` into the search
state and push their children; files are collected. -/
def walkLoop (fs : FS) (matchRel : SearchState → String → Bool → Option Bool)
    (rootLen : Nat) : Nat → SearchState → List FsPath → List FsPath → List FsPath
  | 0, _, _, files => files
  | fuel + 1, pats, stack, files =>
    match stack with
    | [] => files
    | p :: rest =>
      if fs.pathExists p then
        let rel := relOf rootLen p
        let isDir := !fs.isFile p
        if !isEmptyCh rel && ignoredRel matchRel pats rel isDir then
          walkLoop fs matchRel rootLen fuel pats rest files
        else if isDir then
          let pats2 := match fs.files.find? (fun f => f.1 = p ++ [".gitignore"]) with
            | some f => pats ++ [(p ++ [".gitignore"], f.2)]
            | none => pats
          walkLoop fs matchRel rootLen fuel pats2 (childrenOf fs p ++ rest) files
        else
          walkLoop fs matchRel rootLen fuel pats rest (files ++ [p])
      else
        walkLoop fs matchRel rootLen fuel pats rest files

/-- A fuel bound large enough to pop every path the walk can ever push. -/
def walkFuel (fs : FS) : Nat :=
  (fs.files.foldl (fun a f => a + f.1.length + 1) 1) * 2 + 2

/-- `Walk::collect_files` (`src/traversal.rs:55`): seed the search state
with the builder's patterns (a hard-coded `.git/` plus the caller's) and
the root `.gitignore` when present, then walk.  Errors along the way are
logged and skipped; the function always returns a file list (`Ok`). -/
def collect_files (fs : FS) (matchRel : SearchState → String → Bool → Option Bool)
    (extraPatterns : List String) (root : FsPath) : List FsPath :=
  let pats0 : SearchState :=
    ([".git/"] ++ extraPatterns).map (fun p => (root ++ ["_cli_ignore"], p))
  let pats1 := match fs.files.find? (fun f => f.1 = root ++ [".gitignore"]) with
    | some f => pats0 ++ [(root ++ [".gitignore"], f.2)]
    | none => pats0
  walkLoop fs matchRel root.length (walkFuel fs) pats1 [root] []

/-! ## Claims -/

/-- The two manifests of claim C7: package `a` depends on the sibling
workspace package `b` and on the third-party dependency `ext`. -/
def manifestA : RawPackage :=
  ⟨some "a", none, some [("b", "workspace:*"), ("ext", "1.0")], none⟩

/-- The sibling manifest `{"name":"b"}`. -/
def manifestB : RawPackage := ⟨some "b", none, none, none⟩

/-- The graph state after the build processes the sibling manifest `b` and
then the manifest of `a`. -/
def ctxC7 : CtxA :=
  (applyManifest ⟨[]⟩ [] (some manifestA)
    (applyManifest ⟨[]⟩ [] (some manifestB) ctx0).1).1

/-- The per-manifest serial phase of the build over a list of walked
`package.json` files (directory, deserialised content), accumulating the
log output; the build itself always completes (`Ok`), since every parser
result is discarded with `let _ = p.parse(..)`. -/
def buildManifests (fs : FS) (ms : List (FsPath × Option RawPackage)) :
    CtxA × List String :=
  ms.foldl
    (fun acc m =>
      let r := applyManifest fs m.1 m.2 acc.1
      (r.1, acc.2 ++ r.2))
    (ctx0, [])

/-- The graph of claim C2's counterexample: an external node `x` classified
by a `TypeOf` edge to the `__type__::External` singleton. -/
def gC2 : GraphB :=
  ⟨[(0, "__type__::External"), (1, "x")], [(1, 0, EdgeType.TypeOf)]⟩

/-- The build events of claim C3's counterexample: an HTML file at the
root referencing `./assets/logo.svg`, which exists (so the import
resolves) but is scanned by no parser. -/
def evC3 : List BuildEvent :=
  [BuildEvent.scanFile "index.html",
   BuildEvent.importEdge "index.html" "assets/logo.svg" NodeKind.Asset]

/-- The manifest of claim C4's counterexample: `{"name":"a",
"dependencies":{"ext":"1.0"}}`, walked twice (two directories holding the
same manifest). -/
def manifestDup : RawPackage := ⟨some "a", none, some [("ext", "1.0")], none⟩

/-- The graph state after two manifests with the same name and the same
external dependency are processed. -/
def ctxC4 : CtxA :=
  (applyManifest ⟨[]⟩ ["p2"] (some manifestDup)
    (applyManifest ⟨[]⟩ ["p1"] (some manifestDup) ctx0).1).1

/-- The tree of claim C1: `util.ts` and `util/index.ts` both exist next to
the importing directory (the root here). -/
def fsC1 : FS := ⟨[(["util.ts"], ""), (["util", "index.ts"], "")]⟩

/-- C1, counterexample: in a directory holding both `util.ts` and the
directory `util` containing `util/index.ts`, `resolve_relative_import`
returns the directory path `util` — the joined path exists as-is, so the
direct-file probe for `util.ts` is never reached — refuting the claim that
it returns `util.ts`. -/
theorem C1_counterexample :
    fsC1.isFile ["util.ts"] = true ∧
    fsC1.isFile ["util", "index.ts"] = true ∧
    resolve_relative_import fsC1 [] "./util" = some ["util"] ∧
    some ["util"] ≠ some (["util.ts"] : FsPath) := by
  refine ⟨by decide, by decide, by decide, by decide⟩

/-- C1 (amended): in any tree where both `util.ts` and `util/index.ts`
exist, resolving the relative specifier `./util` returns the directory
path `util` itself (its existence as a directory makes the joined path
exist as-is, preempting both the direct-file probe and the index probe). -/
theorem C1_directory_hit_wins (fs : FS) (dir : FsPath)
    (_h1 : fs.isFile (dir ++ ["util.ts"]) = true)
    (h2 : fs.isFile (dir ++ ["util", "index.ts"]) = true) :
    resolve_relative_import fs dir "./util" = some (dir ++ ["util"]) := by
  have hjoin : joinSegs dir "./util" = some (dir ++ ["util"]) := rfl
  have hdir : fs.isDir (dir ++ ["util"]) = true := by
    rcases List.any_eq_true.mp h2 with ⟨f, hf, hp⟩
    unfold FS.isDir
    rw [Bool.or_eq_true]
    right
    apply List.any_eq_true.mpr
    refine ⟨f, hf, ?_⟩
    have hf1 : f.1 = dir ++ ["util", "index.ts"] := by simpa using hp
    rw [Bool.and_eq_true]
    constructor
    · apply List.isPrefixOf_iff_prefix.mpr
      rw [hf1]
      exact ⟨["index.ts"], by simp⟩
    · simp [hf1]
  have hex : fs.pathExists (dir ++ ["util"]) = true := by
    unfold FS.pathExists
    simp [hdir]
  unfold resolve_relative_import
  rw [hjoin]
  simp [hex]

/-- Witness for `C1_directory_hit_wins` at the concrete tree `fsC1`. -/
theorem C1_directory_hit_wins_witness :
    resolve_relative_import fsC1 [] "./util" = some ["util"] :=
  C1_directory_hit_wins fsC1 [] (by decide) (by decide)

/-- C5, counterexample: importing `node:fs` is classified Builtin, but the
node keeps the raw specifier `node:fs` as its name — `JsParser::parse`
copies the specifier verbatim (`i.clone()`), stripping `node:` only inside
the membership test — refuting the claim that the node is named `fs`. -/
theorem C5_counterexample :
    classify_import ⟨[]⟩ [] [] "node:fs" = some ("node:fs", NodeKind.Builtin) ∧
    ("node:fs", NodeKind.Builtin) ≠ ("fs", NodeKind.Builtin) := by
  refine ⟨by decide, by decide⟩

/-- C5 (amended): a non-relative specifier that matches no alias and is a
platform builtin (after stripping an optional `node:` prefix for the
membership test only) is classified Builtin with the raw, unstripped
specifier as the node's canonical name. -/
theorem C5_builtin_keeps_raw_specifier (fs : FS) (dir : FsPath) (spec : String)
    (hdot : startsWithCh spec "." = false)
    (hbuiltin : is_node_builtin spec = true) :
    classify_import fs dir [] spec = some (spec, NodeKind.Builtin) := by
  unfold classify_import
  rw [hdot]
  simp only [Bool.false_eq_true, if_false]
  have halias : resolve_alias_import fs [] spec = none := rfl
  rw [halias, hbuiltin]
  simp

/-- Witness for `C5_builtin_keeps_raw_specifier` at `node:fs`. -/
theorem C5_builtin_keeps_raw_specifier_witness :
    classify_import ⟨[]⟩ [] [] "node:fs" = some ("node:fs", NodeKind.Builtin) :=
  C5_builtin_keeps_raw_specifier ⟨[]⟩ [] "node:fs" (by decide) (by decide)

/-- C7, confirmed: building `{"name":"a","dependencies":{"b":"workspace:*",
"ext":"1.0"}}` beside a sibling package `b` yields Package node `a` with an
edge to Package node `b` (the version starts with the `workspace:` marker)
and an edge to External node `ext`. -/
theorem C7_workspace_and_external_edges :
    ∃ ia ib ie : Nat,
      (ia, Node.mk "a" NodeKind.Package) ∈ ctxC7.nodes ∧
      (ib, Node.mk "b" NodeKind.Package) ∈ ctxC7.nodes ∧
      (ie, Node.mk "ext" NodeKind.External) ∈ ctxC7.nodes ∧
      (ia, ib) ∈ ctxC7.edges ∧ (ia, ie) ∈ ctxC7.edges :=
  ⟨2, 1, 3, by decide, by decide, by decide, by decide, by decide⟩

/-- C8, counterexample: a manifest whose content fails to parse as JSON is
skipped with the graph untouched and an **empty** log — `read_package`
discards the `serde_json` error with `.ok()` and the parsers return `Ok`
silently — refuting the claim that a warning is logged for it. -/
theorem C8_counterexample :
    buildManifests ⟨[]⟩ [(["pkg"], none)] = (ctx0, []) := rfl

/-- C8 (amended): the build completes with a malformed manifest
contributing neither nodes, edges, nor log output: dropping it from the
walked list leaves the result unchanged, and no warning is logged. -/
theorem C8_malformed_manifest_silent (fs : FS)
    (pre post : List (FsPath × Option RawPackage)) (d : FsPath) :
    buildManifests fs (pre ++ [(d, none)] ++ post) = buildManifests fs (pre ++ post) := by
  unfold buildManifests
  rw [List.foldl_append, List.foldl_append, List.foldl_append]
  congr 1
  simp [applyManifest, parsePackageMain, parsePackageDeps]

/-- C10, confirmed: a dependency name listed in both `dependencies` and
`devDependencies` yields a single edge from the Package node, the target's
classification (workspace Package vs External) is decided by the
`devDependencies` version string alone, and the result is identical to a
manifest carrying only that `devDependencies` entry in `dependencies` —
the two maps are merged with `devDependencies` overriding, then processed
by one and the same workspace-marker rule. -/
theorem C10_dev_dependencies_override (v1 v2 : String) :
    (parsePackageDeps
        (some ⟨some "a", none, some [("b", v1)], some [("b", v2)]⟩) ctx0).1.edges
      = [(1, 2)] ∧
    (2, Node.mk "b"
        (if startsWithCh v2 "workspace:" then NodeKind.Package else NodeKind.External))
      ∈ (parsePackageDeps
        (some ⟨some "a", none, some [("b", v1)], some [("b", v2)]⟩) ctx0).1.nodes ∧
    (1, Node.mk "a" NodeKind.Package)
      ∈ (parsePackageDeps
        (some ⟨some "a", none, some [("b", v1)], some [("b", v2)]⟩) ctx0).1.nodes ∧
    parsePackageDeps (some ⟨some "a", none, some [("b", v1)], some [("b", v2)]⟩) ctx0
      = parsePackageDeps (some ⟨some "a", none, some [("b", v2)], none⟩) ctx0 := by
  have hmerge : hmExtend (hmExtend [] [("b", v1)]) [("b", v2)] = [("b", v2)] := by
    simp [hmExtend, hmInsert]
  have hmerge2 : hmExtend (hmExtend [] [("b", v2)]) [] = [("b", v2)] := by
    simp [hmExtend, hmInsert]
  by_cases h : startsWithCh v2 "workspace:" = true
  · refine ⟨?_, ?_, ?_, ?_⟩ <;>
      simp [parsePackageDeps, hmerge, hmerge2, h, ctx0, internNode, lookupIdx,
        addEdge, List.find?]
  · rw [Bool.not_eq_true] at h
    refine ⟨?_, ?_, ?_, ?_⟩ <;>
      simp [parsePackageDeps, hmerge, hmerge2, h, ctx0, internNode, lookupIdx,
        addEdge, List.find?]

/-- C2, counterexample: `filter_graph` with every kind-flag enabled and an
empty ignore list **keeps** the singleton type node and the classification
(`TypeOf`) edge — its first pass adds every type singleton to the filtered
graph and the edge pass copies any edge whose endpoints survived —
refuting the claim that the filtered graph contains neither. -/
theorem C2_counterexample :
    (filter_graph gC2 true true true true true []).nodes.any
      (fun n => is_type_node n.2) = true ∧
    (filter_graph gC2 true true true true true []).edges.any
      (fun e => e.2.2 = EdgeType.TypeOf) = true := by
  refine ⟨by decide, by decide⟩

/-- C2 (amended): with every kind-flag enabled and an empty ignore list,
`filter_graph` returns the whole input graph — type singletons and
classification edges included: the node list is a permutation of the
input's (type singletons are moved to the front) and the edge list is
unchanged — for any graph whose edge endpoints are nodes of the graph. -/
theorem C2_filter_all_flags_is_identity (g : GraphB)
    (hwf : ∀ e ∈ g.edges, g.nodes.any (fun n => n.1 = e.1) = true ∧
      g.nodes.any (fun n => n.1 = e.2.1) = true) :
    (filter_graph g true true true true true []).nodes.Perm g.nodes ∧
    (filter_graph g true true true true true []).edges = g.edges := by
  have hkeep : ∀ k, keepKind k true true true true true = true := by
    intro k
    cases k <;> rfl
  have hpred : (g.nodes.filter (fun n =>
      !is_type_node n.2 && !([] : List String).contains n.2 &&
        keepKind (resolve_node_kind g n.1) true true true true true))
      = g.nodes.filter (fun n => !is_type_node n.2) := by
    apply List.filter_congr
    intro x _
    simp [hkeep]
  have hperm : (filter_graph g true true true true true []).nodes.Perm g.nodes := by
    show ((g.nodes.filter _) ++ (g.nodes.filter _)).Perm g.nodes
    rw [hpred]
    exact List.filter_append_perm _ g.nodes
  refine ⟨hperm, ?_⟩
  show List.filter _ g.edges = g.edges
  apply List.filter_eq_self.mpr
  intro e he
  rcases hwf e he with ⟨h1, h2⟩
  rcases List.any_eq_true.mp h1 with ⟨x1, hx1, hp1⟩
  rcases List.any_eq_true.mp h2 with ⟨x2, hx2, hp2⟩
  rw [Bool.and_eq_true]
  constructor
  · exact List.any_eq_true.mpr ⟨x1, hperm.mem_iff.mpr hx1, hp1⟩
  · exact List.any_eq_true.mpr ⟨x2, hperm.mem_iff.mpr hx2, hp2⟩

/-- Witness for `C2_filter_all_flags_is_identity` at the concrete graph
`gC2`. -/
theorem C2_filter_all_flags_is_identity_witness :
    (filter_graph gC2 true true true true true []).nodes.Perm gC2.nodes ∧
    (filter_graph gC2 true true true true true []).edges = gC2.edges :=
  C2_filter_all_flags_is_identity gC2 (by decide)

/-- C6, code bug: on the graph `pgFail` holding two edge-free non-type
nodes, the first prune pass removes node 0; petgraph's swap-removal moves
the last node into position 0, and the pass then indexes `&graph[idx]` at
the stale snapshot index 1, which is out of bounds — `prune_unconnected`
panics (`none`) instead of returning a graph, so neither the idempotence
nor the self-loop clause of the claim can hold there.  On the shape of the
repo's own test graph `pgTest` — whose isolated node happens to sit at the
**last** index, the one position whose removal leaves the snapshot valid —
the function returns and removes exactly the isolated node, and on
`pgSelf` the node whose only edge is a self-loop survives, matching the
claim's (and the spec's) evident intent. -/
theorem C6_prune_stale_index_panic :
    prunePassRust pgFail = none ∧
    prune_unconnected pgFail = none ∧
    prune_unconnected pgTest
      = some ⟨["a", "b"], [(0, 1, EdgeType.Regular)]⟩ ∧
    prune_unconnected pgSelf = some ⟨["a"], [(0, 0, EdgeType.Regular)]⟩ := by
  refine ⟨by decide, by decide, by decide, by decide⟩

/-- The walk loop with an empty stack returns the collected files, whatever
the remaining fuel. -/
theorem walkLoop_nil (fs : FS) (m : SearchState → String → Bool → Option Bool)
    (rootLen fuel : Nat) (pats : SearchState) (files : List FsPath) :
    walkLoop fs m rootLen fuel pats [] files = files := by
  cases fuel <;> rfl

/-- Popping a missing path (metadata error) logs and skips it. -/
theorem walkLoop_cons_missing (fs : FS)
    (m : SearchState → String → Bool → Option Bool) (rootLen fuel : Nat)
    (pats : SearchState) (p : FsPath) (rest : List FsPath)
    (files : List FsPath) (h : fs.pathExists p = false) :
    walkLoop fs m rootLen (fuel + 1) pats (p :: rest) files =
      walkLoop fs m rootLen fuel pats rest files := by
  show (if fs.pathExists p then _ else walkLoop fs m rootLen fuel pats rest files)
    = walkLoop fs m rootLen fuel pats rest files
  rw [h]
  simp

/-- A file cannot sit directly below a path that does not exist. -/
theorem find?_below_missing (fs : FS) (root : FsPath) (seg : String)
    (h : fs.pathExists root = false) :
    fs.files.find? (fun f => f.1 = root ++ [seg]) = none := by
  cases hf : fs.files.find? (fun f => f.1 = root ++ [seg]) with
  | none => rfl
  | some f =>
    exfalso
    have hmem := List.mem_of_find?_eq_some hf
    have hpred := List.find?_some hf
    have heq : f.1 = root ++ [seg] := by simpa using hpred
    have hdir : fs.isDir root = true := by
      unfold FS.isDir
      rw [Bool.or_eq_true]
      right
      apply List.any_eq_true.mpr
      refine ⟨f, hmem, ?_⟩
      rw [Bool.and_eq_true]
      constructor
      · apply List.isPrefixOf_iff_prefix.mpr
        rw [heq]
        exact ⟨[seg], rfl⟩
      · simp [heq]
    have : fs.pathExists root = true := by
      unfold FS.pathExists
      simp [hdir]
    rw [this] at h
    exact Bool.true_eq_false.mp h

/-- C9, confirmed: when the walk root does not exist, `collect_files`
returns an empty file list (the metadata error on the root is logged and
skipped, never propagated). -/
theorem C9_missing_root_empty (fs : FS)
    (m : SearchState → String → Bool → Option Bool)
    (extraPatterns : List String) (root : FsPath)
    (h : fs.pathExists root = false) :
    collect_files fs m extraPatterns root = [] := by
  unfold collect_files
  rw [find?_below_missing fs root ".gitignore" h]
  obtain ⟨k, hk⟩ : ∃ k, walkFuel fs = k + 1 :=
    ⟨(fs.files.foldl (fun a f => a + f.1.length + 1) 1) * 2 + 1, rfl⟩
  rw [hk, walkLoop_cons_missing fs m root.length k _ root [] [] h]
  exact walkLoop_nil fs m root.length k _ []

/-- Witness for `C9_missing_root_empty`: a one-file tree walked from the
missing root `missing`. -/
theorem C9_missing_root_empty_witness :
    collect_files ⟨[(["a.js"], "")]⟩ (fun _ _ _ => none) [] ["missing"] = [] :=
  C9_missing_root_empty ⟨[(["a.js"], "")]⟩ (fun _ _ _ => none) [] ["missing"]
    (by decide)

theorem CtxLe.rfl (c : CtxA) : CtxLe c c :=
  ⟨fun _ _ h => h, fun _ _ h => h, fun _ h => h⟩

theorem CtxLe.trans {a b c : CtxA} (h1 : CtxLe a b) (h2 : CtxLe b c) :
    CtxLe a c :=
  ⟨fun k i h => h2.1 k i (h1.1 k i h),
   fun x y h => h2.2.1 x y (h1.2.1 x y h),
   fun x h => h2.2.2 x (h1.2.2 x h)⟩

/-- Interning only appends: lookups, edges and nodes persist. -/
theorem internNode_le (key : String × NodeKind) (ctx : CtxA) :
    CtxLe ctx (internNode key ctx).2 := by
  unfold internNode
  cases h : lookupIdx ctx key with
  | some i => exact CtxLe.rfl ctx
  | none =>
    refine ⟨?_, ?_, ?_⟩
    · intro k i hk
      unfold lookupIdx at hk ⊢
      rcases Option.map_eq_some'.mp hk with ⟨e, he, hei⟩
      rw [List.find?_append, he]
      simpa using hei
    · intro a b hab
      exact hab
    · intro x hx
      exact List.mem_append_left _ hx

/-- The interned key is afterwards looked up to the returned identifier. -/
theorem internNode_lookup (key : String × NodeKind) (ctx : CtxA) :
    lookupIdx (internNode key ctx).2 key = some (internNode key ctx).1 := by
  unfold internNode
  cases h : lookupIdx ctx key with
  | some i => exact h
  | none =>
    unfold lookupIdx at h ⊢
    rcases Option.map_eq_none'.mp h with hfind
    simp only [List.find?_append, hfind, Option.none_or]
    simp

theorem addEdge_le (a b : Nat) (ctx : CtxA) : CtxLe ctx (addEdge a b ctx) := by
  refine ⟨fun _ _ h => h, ?_, fun _ h => h⟩
  intro x y h
  unfold hasEdge at h ⊢
  unfold addEdge
  simp only [List.any_append]
  rw [h]
  rfl

theorem addEdgeIfAbsent_le (a b : Nat) (ctx : CtxA) :
    CtxLe ctx (addEdgeIfAbsent a b ctx) := by
  unfold addEdgeIfAbsent
  by_cases h : hasEdge ctx a b = true
  · rw [h]
    exact CtxLe.rfl ctx
  · rw [Bool.not_eq_true] at h
    rw [h]
    exact addEdge_le a b ctx

/-- After the guarded insertion the edge is present. -/
theorem addEdgeIfAbsent_hasEdge (a b : Nat) (ctx : CtxA) :
    hasEdge (addEdgeIfAbsent a b ctx) a b = true := by
  unfold addEdgeIfAbsent
  by_cases h : hasEdge ctx a b = true
  · rw [h]
    simpa using h
  · rw [Bool.not_eq_true] at h
    rw [h]
    show hasEdge (addEdge a b ctx) a b = true
    unfold hasEdge addEdge
    simp

theorem ensureFoldersGo_le (prefixPaths : List String)
    (parentIdx : Nat) (ctx : CtxA) :
    CtxLe ctx (ensureFoldersGo prefixPaths parentIdx ctx).2 := by
  induction prefixPaths generalizing parentIdx ctx with
  | nil => exact CtxLe.rfl ctx
  | cons p rest ih =>
    show CtxLe ctx (ensureFoldersGo rest _ _).2
    exact CtxLe.trans (internNode_le _ ctx)
      (CtxLe.trans (addEdgeIfAbsent_le _ _ _) (ih _ _))

theorem addFileWithFolders_le (rel : String) (rootIdx : Nat) (ctx : CtxA) :
    CtxLe ctx (addFileWithFolders rel rootIdx ctx).2 := by
  show CtxLe ctx (addEdgeIfAbsent _ _ (internNode _ (ensure_folders rel ctx rootIdx).2).2)
  exact CtxLe.trans (ensureFoldersGo_le _ _ _)
    (CtxLe.trans (internNode_le _ _) (addEdgeIfAbsent_le _ _ _))

theorem addImportTarget_le (fromIdx : Nat) (target : String × NodeKind)
    (ctx : CtxA) : CtxLe ctx (addImportTarget fromIdx target ctx) := by
  show CtxLe ctx (addEdge _ _ (internNode target ctx).2)
  exact CtxLe.trans (internNode_le _ _) (addEdge_le _ _ _)

theorem applyEvent_le (ctx : CtxA) (e : BuildEvent) :
    CtxLe ctx (applyEvent ctx e) := by
  cases e with
  | scanFile rel => exact addFileWithFolders_le rel 0 ctx
  | importEdge fromRel target kind =>
    show CtxLe ctx (match lookupIdx ctx (fromRel, NodeKind.File) with
      | some fi => addImportTarget fi (target, kind) ctx
      | none => ctx)
    cases lookupIdx ctx (fromRel, NodeKind.File) with
    | some fi => exact addImportTarget_le fi (target, kind) ctx
    | none => exact CtxLe.rfl ctx

theorem foldl_applyEvent_le (events : List BuildEvent) (ctx : CtxA) :
    CtxLe ctx (events.foldl applyEvent ctx) := by
  induction events generalizing ctx with
  | nil => exact CtxLe.rfl ctx
  | cons e rest ih =>
    exact CtxLe.trans (applyEvent_le ctx e) (ih (applyEvent ctx e))

theorem WFidx_ctx0 : WFidx ctx0 := by
  intro p hp
  rcases List.mem_singleton.mp hp with rfl
  exact List.mem_singleton.mpr rfl

theorem WFidx_internNode (key : String × NodeKind) (ctx : CtxA)
    (h : WFidx ctx) : WFidx (internNode key ctx).2 := by
  unfold internNode
  cases hl : lookupIdx ctx key with
  | some i => exact h
  | none =>
    intro p hp
    rcases List.mem_append.mp hp with hin | hnew
    · exact List.mem_append_left _ (h p hin)
    · rcases List.mem_singleton.mp hnew with rfl
      exact List.mem_append_right _ (List.mem_singleton.mpr rfl)

theorem WFidx_addEdge (a b : Nat) (ctx : CtxA) (h : WFidx ctx) :
    WFidx (addEdge a b ctx) := h

theorem WFidx_addEdgeIfAbsent (a b : Nat) (ctx : CtxA) (h : WFidx ctx) :
    WFidx (addEdgeIfAbsent a b ctx) := by
  unfold addEdgeIfAbsent
  by_cases hc : hasEdge ctx a b = true
  · rw [hc]
    exact h
  · rw [Bool.not_eq_true] at hc
    rw [hc]
    exact WFidx_addEdge a b ctx h

theorem WFidx_ensureFoldersGo (prefixPaths : List String)
    (parentIdx : Nat) (ctx : CtxA) (h : WFidx ctx) :
    WFidx (ensureFoldersGo prefixPaths parentIdx ctx).2 := by
  induction prefixPaths generalizing parentIdx ctx with
  | nil => exact h
  | cons p rest ih =>
    exact ih _ _ (WFidx_addEdgeIfAbsent _ _ _ (WFidx_internNode _ _ h))

theorem WFidx_addFileWithFolders (rel : String) (rootIdx : Nat) (ctx : CtxA)
    (h : WFidx ctx) : WFidx (addFileWithFolders rel rootIdx ctx).2 :=
  WFidx_addEdgeIfAbsent _ _ _
    (WFidx_internNode _ _ (WFidx_ensureFoldersGo _ _ _ h))

theorem WFidx_applyEvent (ctx : CtxA) (e : BuildEvent) (h : WFidx ctx) :
    WFidx (applyEvent ctx e) := by
  cases e with
  | scanFile rel => exact WFidx_addFileWithFolders rel 0 ctx h
  | importEdge fromRel target kind =>
    show WFidx (match lookupIdx ctx (fromRel, NodeKind.File) with
      | some fi => addImportTarget fi (target, kind) ctx
      | none => ctx)
    cases lookupIdx ctx (fromRel, NodeKind.File) with
    | some fi =>
      exact WFidx_addEdge _ _ _ (WFidx_internNode _ _ h)
    | none => exact h

/-- A successful lookup names a node actually present in the graph. -/
theorem WFidx_lookup_mem (ctx : CtxA) (k : String × NodeKind) (i : Nat)
    (hwf : WFidx ctx) (hl : lookupIdx ctx k = some i) :
    (i, Node.mk k.1 k.2) ∈ ctx.nodes := by
  unfold lookupIdx at hl
  rcases Option.map_eq_some'.mp hl with ⟨e, he, hei⟩
  have hmem := List.mem_of_find?_eq_some he
  have hpred := List.find?_some he
  have h1 : e.1 = k := by simpa using hpred
  have := hwf e hmem
  rw [h1] at this
  rw [← hei]
  exact this

/-- Chain checks transport along context extension. -/
theorem chainGoN_mono (c1 c2 : CtxA) (hle : CtxLe c1 c2)
    (prefixPaths : List String) :
    ∀ parentIdx, chainGoN c1 parentIdx prefixPaths = true →
      chainGoN c2 parentIdx prefixPaths = true := by
  induction prefixPaths with
  | nil =>
    intro _ _
    rfl
  | cons p rest ih =>
    intro parentIdx h
    unfold chainGoN at h ⊢
    cases hl : lookupIdx c1 (p, NodeKind.Folder) with
    | none =>
      rw [hl] at h
      exact absurd h (by simp)
    | some i =>
      rw [hl] at h
      rw [hle.1 _ i hl]
      simp only [Bool.and_eq_true] at h ⊢
      refine ⟨⟨?_, ?_⟩, ?_⟩
      · exact decide_eq_true (hle.2.2 _ (of_decide_eq_true h.1.1))
      · exact hle.2.1 _ _ h.1.2
      · exact ih i h.2

/-- `ensure_folders`' loop establishes the folder chain for the prefixes it
walks: every prefix gets an interned Folder node, present in the graph and
linked from the previous one. -/
theorem ensureFoldersGo_chain (prefixPaths : List String)
    (parentIdx : Nat) (ctx : CtxA) (hwf : WFidx ctx) :
    chainGoN (ensureFoldersGo prefixPaths parentIdx ctx).2
      parentIdx prefixPaths = true := by
  induction prefixPaths generalizing parentIdx ctx with
  | nil => rfl
  | cons p rest ih =>
    have hl1 : lookupIdx (internNode (p, NodeKind.Folder) ctx).2
        (p, NodeKind.Folder) = some (internNode (p, NodeKind.Folder) ctx).1 :=
      internNode_lookup _ ctx
    have hle2 : CtxLe (internNode (p, NodeKind.Folder) ctx).2
        (addEdgeIfAbsent parentIdx (internNode (p, NodeKind.Folder) ctx).1
          (internNode (p, NodeKind.Folder) ctx).2) :=
      addEdgeIfAbsent_le _ _ _
    have hwf2 : WFidx (addEdgeIfAbsent parentIdx
        (internNode (p, NodeKind.Folder) ctx).1
        (internNode (p, NodeKind.Folder) ctx).2) :=
      WFidx_addEdgeIfAbsent _ _ _ (WFidx_internNode _ _ hwf)
    have hl2 : lookupIdx (addEdgeIfAbsent parentIdx
        (internNode (p, NodeKind.Folder) ctx).1
        (internNode (p, NodeKind.Folder) ctx).2) (p, NodeKind.Folder)
        = some (internNode (p, NodeKind.Folder) ctx).1 :=
      hle2.1 _ _ hl1
    have hedge2 : hasEdge (addEdgeIfAbsent parentIdx
        (internNode (p, NodeKind.Folder) ctx).1
        (internNode (p, NodeKind.Folder) ctx).2)
        parentIdx (internNode (p, NodeKind.Folder) ctx).1 = true :=
      addEdgeIfAbsent_hasEdge _ _ _
    have hmem2 : ((internNode (p, NodeKind.Folder) ctx).1,
        Node.mk p NodeKind.Folder) ∈ (addEdgeIfAbsent parentIdx
          (internNode (p, NodeKind.Folder) ctx).1
          (internNode (p, NodeKind.Folder) ctx).2).nodes :=
      WFidx_lookup_mem _ _ _ hwf2 hl2
    have hle3 : CtxLe (addEdgeIfAbsent parentIdx
        (internNode (p, NodeKind.Folder) ctx).1
        (internNode (p, NodeKind.Folder) ctx).2)
        (ensureFoldersGo rest (internNode (p, NodeKind.Folder) ctx).1
          (addEdgeIfAbsent parentIdx (internNode (p, NodeKind.Folder) ctx).1
            (internNode (p, NodeKind.Folder) ctx).2)).2 :=
      ensureFoldersGo_le _ _ _
    show chainGoN (ensureFoldersGo rest (internNode (p, NodeKind.Folder) ctx).1
        (addEdgeIfAbsent parentIdx (internNode (p, NodeKind.Folder) ctx).1
          (internNode (p, NodeKind.Folder) ctx).2)).2
      parentIdx (p :: rest) = true
    unfold chainGoN
    rw [hle3.1 _ _ hl2]
    simp only [Bool.and_eq_true]
    refine ⟨⟨?_, ?_⟩, ?_⟩
    · exact decide_eq_true (hle3.2.2 _ hmem2)
    · exact hle3.2.1 _ _ hedge2
    · exact ih _ _ hwf2

/-- Registering a scanned file establishes its folder-ancestry chain and
its File node. -/
theorem addFileWithFolders_chain (rel : String) (rootIdx : Nat) (ctx : CtxA)
    (hwf : WFidx ctx) :
    chainGoN (addFileWithFolders rel rootIdx ctx).2 rootIdx
        (accumPrefixes "" (parentComponents rel)) = true ∧
      lookupIdx (addFileWithFolders rel rootIdx ctx).2 (rel, NodeKind.File)
        = some (addFileWithFolders rel rootIdx ctx).1 ∧
      ((addFileWithFolders rel rootIdx ctx).1, Node.mk rel NodeKind.File)
        ∈ (addFileWithFolders rel rootIdx ctx).2.nodes := by
  have hchain1 : chainGoN (ensure_folders rel ctx rootIdx).2 rootIdx
      (accumPrefixes "" (parentComponents rel)) = true :=
    ensureFoldersGo_chain _ _ _ hwf
  have hwf1 : WFidx (ensure_folders rel ctx rootIdx).2 :=
    WFidx_ensureFoldersGo _ _ _ hwf
  have hwf2 : WFidx (internNode (rel, NodeKind.File)
      (ensure_folders rel ctx rootIdx).2).2 :=
    WFidx_internNode _ _ hwf1
  have hlf : lookupIdx (internNode (rel, NodeKind.File)
      (ensure_folders rel ctx rootIdx).2).2 (rel, NodeKind.File)
      = some (internNode (rel, NodeKind.File)
        (ensure_folders rel ctx rootIdx).2).1 :=
    internNode_lookup _ _
  have hle2 : CtxLe (ensure_folders rel ctx rootIdx).2
      (addFileWithFolders rel rootIdx ctx).2 :=
    CtxLe.trans (internNode_le _ _) (addEdgeIfAbsent_le _ _ _)
  have hle3 : CtxLe (internNode (rel, NodeKind.File)
      (ensure_folders rel ctx rootIdx).2).2
      (addFileWithFolders rel rootIdx ctx).2 :=
    addEdgeIfAbsent_le _ _ _
  have hwf3 : WFidx (addFileWithFolders rel rootIdx ctx).2 :=
    WFidx_addFileWithFolders _ _ _ hwf
  have hlf3 : lookupIdx (addFileWithFolders rel rootIdx ctx).2
      (rel, NodeKind.File) = some (addFileWithFolders rel rootIdx ctx).1 :=
    hle3.1 _ _ hlf
  refine ⟨chainGoN_mono _ _ hle2 _ _ hchain1, hlf3, ?_⟩
  exact WFidx_lookup_mem _ _ _ hwf3 hlf3

/-- Every scanned file in a build has, in the final graph, its full folder
ancestry and its File node. -/
theorem foldl_scan_invariant (events : List BuildEvent) (ctx : CtxA)
    (hwf : WFidx ctx) (rel : String)
    (hmem : BuildEvent.scanFile rel ∈ events) :
    chainGoN (events.foldl applyEvent ctx) 0
        (accumPrefixes "" (parentComponents rel)) = true ∧
      ∃ i, lookupIdx (events.foldl applyEvent ctx) (rel, NodeKind.File) = some i ∧
        (i, Node.mk rel NodeKind.File) ∈ (events.foldl applyEvent ctx).nodes := by
  induction events generalizing ctx with
  | nil => cases hmem
  | cons e rest ih =>
    rcases List.mem_cons.mp hmem with heq | hrest
    · subst heq
      have hfile := addFileWithFolders_chain rel 0 ctx hwf
      have hle : CtxLe (applyEvent ctx (BuildEvent.scanFile rel))
          (rest.foldl applyEvent (applyEvent ctx (BuildEvent.scanFile rel))) :=
        foldl_applyEvent_le _ _
      refine ⟨?_, ?_⟩
      · exact chainGoN_mono _ _ hle _ _ hfile.1
      · exact ⟨(addFileWithFolders rel 0 ctx).1, hle.1 _ _ hfile.2.1,
          hle.2.2 _ hfile.2.2⟩
    · exact ih (applyEvent ctx e) (WFidx_applyEvent ctx e hwf) hrest

/-- C3, counterexample: the Asset node `assets/logo.svg`, created as a
resolved import target (`HtmlParser` interns the target and adds the
edge without calling `ensure_folders` on it), has no Folder node `assets`
in the graph — refuting the claim that every File or Asset node has a
Folder node for each proper path prefix. -/
theorem C3_counterexample :
    (buildA evC3).nodes.any
      (fun n => n.2 = Node.mk "assets/logo.svg" NodeKind.Asset) = true ∧
    lookupIdx (buildA evC3) ("assets", NodeKind.Folder) = none ∧
    (buildA evC3).nodes.any (fun n => n.2.name = "assets") = false := by
  refine ⟨by decide, by decide, by decide⟩

/-- C3 (amended): the folder-ancestry invariant holds for every **scanned**
file: its File node exists, a Folder node exists for every proper prefix of
its path, each prefix's node is linked by a (Regular) edge from its
immediate parent, and the chain starts at the root Folder node named by the
empty string, which is always present.  Import-target nodes (such as Asset
targets) are interned without folder ancestry. -/
theorem C3_scanned_file_folder_ancestry (events : List BuildEvent)
    (rel : String) (hmem : BuildEvent.scanFile rel ∈ events) :
    chainOk (buildA events) rel = true ∧
    (∃ i, lookupIdx (buildA events) (rel, NodeKind.File) = some i ∧
      (i, Node.mk rel NodeKind.File) ∈ (buildA events).nodes) ∧
    (0, Node.mk "" NodeKind.Folder) ∈ (buildA events).nodes := by
  have h := foldl_scan_invariant events ctx0 WFidx_ctx0 rel hmem
  refine ⟨h.1, h.2, ?_⟩
  exact (foldl_applyEvent_le events ctx0).2.2 _ (List.mem_singleton.mpr rfl)

/-- Witness for `C3_scanned_file_folder_ancestry` on a build scanning the
single file `a/b/c.js`. -/
theorem C3_scanned_file_folder_ancestry_witness :
    chainOk (buildA [BuildEvent.scanFile "a/b/c.js"]) "a/b/c.js" = true ∧
    (∃ i, lookupIdx (buildA [BuildEvent.scanFile "a/b/c.js"])
        ("a/b/c.js", NodeKind.File) = some i ∧
      (i, Node.mk "a/b/c.js" NodeKind.File)
        ∈ (buildA [BuildEvent.scanFile "a/b/c.js"]).nodes) ∧
    (0, Node.mk "" NodeKind.Folder)
      ∈ (buildA [BuildEvent.scanFile "a/b/c.js"]).nodes :=
  C3_scanned_file_folder_ancestry [BuildEvent.scanFile "a/b/c.js"] "a/b/c.js"
    (List.mem_singleton.mpr rfl)

/-- Interning never touches the edge list. -/
theorem internNode_edges (key : String × NodeKind) (ctx : CtxA) :
    (internNode key ctx).2.edges = ctx.edges := by
  unfold internNode
  cases lookupIdx ctx key <;> rfl

/-- The guarded edge insertion keeps the edge list duplicate-free. -/
theorem nodup_addEdgeIfAbsent (a b : Nat) (ctx : CtxA)
    (h : ctx.edges.Nodup) : (addEdgeIfAbsent a b ctx).edges.Nodup := by
  unfold addEdgeIfAbsent
  by_cases hc : hasEdge ctx a b = true
  · rw [hc]
    exact h
  · rw [Bool.not_eq_true] at hc
    rw [hc]
    show (ctx.edges ++ [(a, b)]).Nodup
    apply List.nodup_append.mpr
    refine ⟨h, List.nodup_singleton _, ?_⟩
    intro x hx hx1
    rcases List.mem_singleton.mp hx1 with rfl
    have : hasEdge ctx a b = true := List.any_eq_true.mpr ⟨(a, b), hx, by simp⟩
    rw [this] at hc
    cases hc

theorem nodup_ensureFoldersGo (prefixPaths : List String) (parentIdx : Nat)
    (ctx : CtxA) (h : ctx.edges.Nodup) :
    (ensureFoldersGo prefixPaths parentIdx ctx).2.edges.Nodup := by
  induction prefixPaths generalizing parentIdx ctx with
  | nil => exact h
  | cons p rest ih =>
    apply ih
    apply nodup_addEdgeIfAbsent
    rw [internNode_edges]
    exact h

theorem nodup_addFileWithFolders (rel : String) (rootIdx : Nat) (ctx : CtxA)
    (h : ctx.edges.Nodup) : (addFileWithFolders rel rootIdx ctx).2.edges.Nodup := by
  show (addEdgeIfAbsent _ _ (internNode _ (ensure_folders rel ctx rootIdx).2).2).edges.Nodup
  apply nodup_addEdgeIfAbsent
  rw [internNode_edges]
  exact nodup_ensureFoldersGo _ _ _ h

theorem nodup_scan_foldl (rels : List String) :
    ∀ ctx : CtxA, ctx.edges.Nodup →
      ((rels.map BuildEvent.scanFile).foldl applyEvent ctx).edges.Nodup := by
  induction rels with
  | nil =>
    intro ctx h
    exact h
  | cons r rest ih =>
    intro ctx h
    exact ih _ (nodup_addFileWithFolders r 0 ctx h)

/-- C4, counterexample: `PackageDepsParser` inserts dependency edges with a
plain `add_edge`, without the `find_edge` guard — two manifests sharing the
package name `a` and the dependency `ext` leave two parallel edges between
the Package node `a` and the External node `ext` — refuting the claim that
at most one Regular edge exists between any ordered pair of distinct
nodes. -/
theorem C4_counterexample :
    (1, Node.mk "a" NodeKind.Package) ∈ ctxC4.nodes ∧
    (2, Node.mk "ext" NodeKind.External) ∈ ctxC4.nodes ∧
    (1 : Nat) ≠ 2 ∧
    (ctxC4.edges.filter (fun e => e = (1, 2))).length = 2 := by
  refine ⟨by decide, by decide, by decide, by decide⟩

/-- C4 (amended): edge deduplication holds where the code guards insertion
with `find_edge`: a build consisting of scanned files (folder-hierarchy
links and parent-file links) never duplicates an edge; and within a single
manifest the dependency maps are merged into one keyed map, so a dependency
listed more than once (in `dependencies` and `devDependencies`) still
yields exactly one edge.  Dependency edges themselves are inserted without
a guard, so distinct manifests can duplicate them (see the
counterexample). -/
theorem C4_guarded_edges_are_deduplicated :
    (∀ rels : List String, (buildA (rels.map BuildEvent.scanFile)).edges.Nodup) ∧
    (parsePackageDeps
        (some ⟨some "a", none, some [("b", "1.0")], some [("b", "2.0")]⟩)
        ctx0).1.edges.Nodup ∧
    (parsePackageDeps
        (some ⟨some "a", none, some [("b", "1.0")], some [("b", "2.0")]⟩)
        ctx0).1.edges.length = 1 := by
  refine ⟨?_, by decide, by decide⟩
  intro rels
  exact nodup_scan_foldl rels ctx0 List.nodup_nil

end Dep


